import Mathlib

/-!
Shallow embedding of `src/cache_mem.cpp`, a set-associative cache simulator
with LRU replacement, together with theorems settling the specification's
claims about it.

The C++ source is embedded as follows:
* the compile-time configuration constants and `get_log2` become Lean `def`s;
* `struct CacheLine` becomes a Lean structure (`valid : Bool`, `tag : Nat`
  for the `uint64_t` tag value);
* the engine state (`vector<list<CacheLine>> sets` plus the three `long long`
  counters) becomes the structure `CacheSimulator` with a `List (List CacheLine)`
  and `Nat` counters;
* `accessMemory` becomes a pure state-transformer; the `find_if` + `splice`
  hit path is embedded by `extractFirst` (remove the first matching line,
  keeping the order of the others) followed by consing it to the front, and
  the miss path by a front insertion followed by `dropLast` (= `pop_back`)
  when the size exceeds `WAYS`;
* the hit-rate computation of `printStats` (a `double`) is embedded over `ℚ`.
-/

namespace CacheSim

set_option maxRecDepth 100000

/-- `constexpr int CACHE_SIZE = 32 * 1024;` -/
def CACHE_SIZE : Nat := 32 * 1024

/-- `constexpr int BLOCK_SIZE = 64;` -/
def BLOCK_SIZE : Nat := 64

/-- `constexpr int WAYS = 4;` -/
def WAYS : Nat := 4

/-- `constexpr int NUM_SETS = CACHE_SIZE / (BLOCK_SIZE * WAYS);` -/
def NUM_SETS : Nat := CACHE_SIZE / (BLOCK_SIZE * WAYS)

/-- The loop `while (n > 1) { n >>= 1; ret++; }` of `get_log2`, as structural
recursion on a fuel argument bounding the iteration count (the loop halves `n`
each iteration, so `n` itself is always enough fuel). -/
def get_log2Aux : Nat → Nat → Nat
  | 0, _ => 0
  | fuel + 1, n => if 1 < n then get_log2Aux fuel (n / 2) + 1 else 0

/-- `constexpr int get_log2(int n)`. -/
def get_log2 (n : Nat) : Nat :=
  get_log2Aux n n

/-- `constexpr int OFFSET_BITS = get_log2(BLOCK_SIZE);` -/
def OFFSET_BITS : Nat := get_log2 BLOCK_SIZE

/-- `constexpr int INDEX_BITS = get_log2(NUM_SETS);` -/
def INDEX_BITS : Nat := get_log2 NUM_SETS

/-- `struct CacheLine { bool valid = false; Address tag = 0; };` -/
structure CacheLine where
  valid : Bool
  tag : Nat
  deriving DecidableEq

/-- The private state of `class CacheSimulator`: the per-set storage and the
three statistics counters. -/
structure CacheSimulator where
  sets : List (List CacheLine)
  accesses : Nat
  hits : Nat
  misses : Nat
  deriving DecidableEq

/-- The constructor `CacheSimulator() { sets.resize(NUM_SETS); }`:
`NUM_SETS` empty sets, all counters zero. -/
def initSimulator : CacheSimulator :=
  { sets := List.replicate NUM_SETS []
    accesses := 0
    hits := 0
    misses := 0 }

/-- `const Address index_mask = (1ULL << INDEX_BITS) - 1;` -/
def index_mask : Nat := (1 <<< INDEX_BITS) - 1

/-- `const Address index = (address >> OFFSET_BITS) & index_mask;` -/
def decodeIndex (address : Nat) : Nat :=
  (address >>> OFFSET_BITS) &&& index_mask

/-- `const Address tag = address >> (OFFSET_BITS + INDEX_BITS);` -/
def decodeTag (address : Nat) : Nat :=
  address >>> (OFFSET_BITS + INDEX_BITS)

/-- The `find_if` lambda: `line.valid && line.tag == tag`. -/
def lineMatches (tag : Nat) (line : CacheLine) : Bool :=
  line.valid && line.tag == tag

/-- One pass over the set embedding `find_if` followed by `splice`:
locate the first line matching `tag`; if found, return it together with the
list with that one occurrence removed (all other lines kept in order). -/
def extractFirst (tag : Nat) : List CacheLine → Option (CacheLine × List CacheLine)
  | [] => none
  | l :: ls =>
    if lineMatches tag l then
      some (l, ls)
    else
      match extractFirst tag ls with
      | some (m, rest) => some (m, l :: rest)
      | none => none

/-- The body of `accessMemory` acting on the selected set: returns the
hit/miss classification (`it != current_set.end()`) and the updated set.
Hit: `splice(begin, it)` moves the matched line to the front. Miss:
`emplace_front(CacheLine{true, tag})`, then `pop_back()` (= `dropLast`)
when `current_set.size() > WAYS`. -/
def accessSet (tag : Nat) (s : List CacheLine) : Bool × List CacheLine :=
  match extractFirst tag s with
  | some (m, rest) => (true, m :: rest)
  | none =>
    let inserted := ({ valid := true, tag := tag } : CacheLine) :: s
    (false, if WAYS < inserted.length then inserted.dropLast else inserted)

/-- `void accessMemory(Address address)`, additionally exposing the hit/miss
classification of the access: increments `accesses`, decodes `(index, tag)`,
updates the set `sets[index]` via `accessSet`, and increments `hits` on the
hit path and `misses` on the miss path. -/
def accessClassify (c : CacheSimulator) (address : Nat) : Bool × CacheSimulator :=
  let index := decodeIndex address
  let tag := decodeTag address
  let current_set := c.sets.getD index []
  let r := accessSet tag current_set
  (r.1,
    { sets := c.sets.set index r.2
      accesses := c.accesses + 1
      hits := if r.1 then c.hits + 1 else c.hits
      misses := if r.1 then c.misses else c.misses + 1 })

/-- `accessMemory` as a pure state transformer (the C++ method returns `void`). -/
def accessMemory (c : CacheSimulator) (address : Nat) : CacheSimulator :=
  (accessClassify c address).2

/-- Feed a trace of addresses, in order, into a freshly constructed engine
(the loop of `main`). -/
def run (trace : List Nat) : CacheSimulator :=
  trace.foldl accessMemory initSimulator

/-- The per-access hit/miss classifications produced by feeding a trace into
a freshly constructed engine (`true` = hit, `false` = miss). -/
def classifyTrace (trace : List Nat) : List Bool :=
  (trace.foldl
    (fun (acc : List Bool × CacheSimulator) a =>
      let r := accessClassify acc.2 a
      (acc.1 ++ [r.1], r.2))
    ([], initSimulator)).1

/-- The hit-rate computation of `printStats`:
`(accesses > 0) ? (double(hits) / accesses) * 100.0 : 0.0`, over `ℚ`. -/
def hitRate (c : CacheSimulator) : ℚ :=
  if 0 < c.accesses then ((c.hits : ℚ) / (c.accesses : ℚ)) * 100 else 0

/-- The read-only report surfaced by `printStats`:
`(accesses, hits, misses, hit_rate)`. -/
def report (c : CacheSimulator) : Nat × Nat × Nat × ℚ :=
  (c.accesses, c.hits, c.misses, hitRate c)

/-- The hardcoded reference trace of `main`. -/
def refTrace : List Nat :=
  [0x1000, 0x1004, 0x1008, 0x2000, 0x2004, 0x1000, 0x3000, 0x4000, 0x5000, 0x6000, 0x7000]

/-- An address with the given tag and index fields (and zero offset bits):
the inverse of the decomposition, used to speak about "an address mapping to
this set with this tag". -/
def encodeAddr (tag index : Nat) : Nat :=
  tag <<< (OFFSET_BITS + INDEX_BITS) + index <<< OFFSET_BITS

/-! ## Helper lemmas -/

lemma accessMemory_accesses (c : CacheSimulator) (a : Nat) :
    (accessMemory c a).accesses = c.accesses + 1 := by
  simp [accessMemory, accessClassify]

lemma accessMemory_sets (c : CacheSimulator) (a : Nat) :
    (accessMemory c a).sets =
      c.sets.set (decodeIndex a)
        (accessSet (decodeTag a) (c.sets.getD (decodeIndex a) [])).2 := rfl

lemma accessClassify_fst (c : CacheSimulator) (a : Nat) :
    (accessClassify c a).1 =
      (accessSet (decodeTag a) (c.sets.getD (decodeIndex a) [])).1 := rfl

lemma accessMemory_sets_length (c : CacheSimulator) (a : Nat) :
    (accessMemory c a).sets.length = c.sets.length := by
  simp [accessMemory, accessClassify]

lemma foldl_sets_length (trace : List Nat) :
    ∀ c : CacheSimulator, (trace.foldl accessMemory c).sets.length = c.sets.length := by
  induction trace with
  | nil => intro c; rfl
  | cons a tl ih => intro c; rw [List.foldl_cons, ih, accessMemory_sets_length]

lemma run_sets_length (trace : List Nat) : (run trace).sets.length = NUM_SETS := by
  rw [run, foldl_sets_length]
  simp [initSimulator]

lemma index_mask_eq : index_mask = 127 := by decide

lemma decodeIndex_lt (a : Nat) : decodeIndex a < NUM_SETS := by
  have h1 : decodeIndex a ≤ 127 := by
    rw [decodeIndex, index_mask_eq]
    exact Nat.and_le_right
  have h2 : NUM_SETS = 128 := by decide
  omega

lemma counters_step (c : CacheSimulator) (a : Nat)
    (h : c.accesses = c.hits + c.misses) :
    (accessMemory c a).accesses = (accessMemory c a).hits + (accessMemory c a).misses := by
  simp only [accessMemory, accessClassify]
  cases (accessSet (decodeTag a) (c.sets.getD (decodeIndex a) [])).1 <;> simp <;> omega

lemma counters_foldl (trace : List Nat) :
    ∀ c : CacheSimulator, c.accesses = c.hits + c.misses →
      (trace.foldl accessMemory c).accesses =
        (trace.foldl accessMemory c).hits + (trace.foldl accessMemory c).misses := by
  induction trace with
  | nil => intro c h; exact h
  | cons a tl ih => intro c h; exact ih _ (counters_step c a h)

lemma extractFirst_some_spec (tag : Nat) :
    ∀ (s : List CacheLine) (m : CacheLine) (rest : List CacheLine),
      extractFirst tag s = some (m, rest) →
      ∃ pre post, s = pre ++ m :: post ∧ rest = pre ++ post ∧
        lineMatches tag m = true ∧ ∀ l ∈ pre, lineMatches tag l = false := by
  intro s
  induction s with
  | nil => intro m rest h; simp [extractFirst] at h
  | cons l ls ih =>
    intro m rest h
    by_cases hm : lineMatches tag l
    · rw [extractFirst, if_pos hm] at h
      obtain ⟨h1, h2⟩ : l = m ∧ ls = rest := by simpa using h
      exact ⟨[], ls, by simp [← h1], by simp [← h2], h1 ▸ hm, by simp⟩
    · rw [extractFirst, if_neg hm] at h
      cases he : extractFirst tag ls with
      | none => rw [he] at h; simp at h
      | some pr =>
        obtain ⟨m', rest'⟩ := pr
        rw [he] at h
        obtain ⟨h1, h2⟩ : m' = m ∧ l :: rest' = rest := by simpa using h
        subst h1; subst h2
        obtain ⟨pre, post, hs, hr, hmm, hpre⟩ := ih m' rest' he
        refine ⟨l :: pre, post, by simp [hs], by simp [hr], hmm, ?_⟩
        intro x hx
        rcases List.mem_cons.mp hx with h3 | h3
        · subst h3; simpa using hm
        · exact hpre x h3

lemma extractFirst_none_spec (tag : Nat) (s : List CacheLine) :
    extractFirst tag s = none ↔ ∀ l ∈ s, lineMatches tag l = false := by
  induction s with
  | nil => simp [extractFirst]
  | cons l ls ih =>
    by_cases hm : lineMatches tag l
    · rw [extractFirst, if_pos hm]
      simp [hm]
    · rw [extractFirst, if_neg hm]
      cases he : extractFirst tag ls with
      | none =>
        have hls : ∀ x ∈ ls, lineMatches tag x = false := ih.mp he
        constructor
        · intro _ x hx
          rcases List.mem_cons.mp hx with h3 | h3
          · subst h3; simpa using hm
          · exact hls x h3
        · intro _
          rfl
      | some pr =>
        constructor
        · intro h
          obtain ⟨m', rest'⟩ := pr
          simp at h
        · intro h
          exfalso
          obtain ⟨m', rest'⟩ := pr
          obtain ⟨pre, post, hs, _, hmm, _⟩ := extractFirst_some_spec tag ls m' rest' he
          have hf : lineMatches tag m' = false :=
            h m' (List.mem_cons_of_mem l (by rw [hs]; simp))
          rw [hmm] at hf
          simp at hf

lemma extractFirst_isSome_eq_any (tag : Nat) (s : List CacheLine) :
    (extractFirst tag s).isSome = s.any (lineMatches tag) := by
  induction s with
  | nil => rfl
  | cons l ls ih =>
    by_cases hm : lineMatches tag l
    · rw [extractFirst, if_pos hm]
      simp [hm]
    · rw [extractFirst, if_neg hm]
      cases he : extractFirst tag ls with
      | none =>
        rw [he] at ih
        simp [List.any_cons, hm, ← ih]
      | some pr =>
        obtain ⟨m, rest⟩ := pr
        rw [he] at ih
        simp [List.any_cons, hm, ← ih]

lemma getD_set_self {α : Type} (l : List α) (i : Nat) (b d : α) (h : i < l.length) :
    (l.set i b).getD i d = b := by
  simp [List.getD_eq_getElem?_getD, List.getElem?_set_self, h]

lemma getD_set_ne {α : Type} (l : List α) (i j : Nat) (b d : α) (h : j ≠ i) :
    (l.set i b).getD j d = l.getD j d := by
  rw [List.getD_eq_getElem?_getD, List.getD_eq_getElem?_getD,
    List.getElem?_set_ne (by omega : i ≠ j)]

/-- The per-set well-formedness invariant maintained by the engine: at most
`WAYS` lines, pairwise distinct tags, all lines valid. -/
def goodSet (s : List CacheLine) : Prop :=
  s.length ≤ WAYS ∧ (s.map CacheLine.tag).Nodup ∧ ∀ l ∈ s, l.valid = true

lemma goodSet_nil : goodSet [] := by simp [goodSet]

lemma accessSet_good (tag : Nat) (s : List CacheLine) (h : goodSet s) :
    goodSet (accessSet tag s).2 := by
  obtain ⟨hlen, hnd, hval⟩ := h
  rw [accessSet]
  cases he : extractFirst tag s with
  | some pr =>
    obtain ⟨m, rest⟩ := pr
    obtain ⟨pre, post, hs, hr, hm, _⟩ := extractFirst_some_spec tag s m rest he
    have hperm : List.Perm s (m :: rest) := by
      rw [hs, hr]; exact List.perm_middle
    refine ⟨?_, ?_, ?_⟩
    · simpa [← hperm.length_eq] using hlen
    · exact ((hperm.map CacheLine.tag).nodup_iff).mp hnd
    · intro l hl
      exact hval l (hperm.mem_iff.mpr hl)
  | none =>
    have hnotin : ∀ l ∈ s, lineMatches tag l = false :=
      (extractFirst_none_spec tag s).mp he
    have htag : tag ∉ s.map CacheLine.tag := by
      intro hmem
      obtain ⟨l, hl, hlt⟩ := List.mem_map.mp hmem
      have hf := hnotin l hl
      rw [lineMatches, hval l hl, hlt] at hf
      simp at hf
    have hnd' : ((({ valid := true, tag := tag } : CacheLine) :: s).map CacheLine.tag).Nodup := by
      rw [List.map_cons, List.nodup_cons]
      exact ⟨htag, hnd⟩
    have hval' : ∀ l ∈ ({ valid := true, tag := tag } : CacheLine) :: s, l.valid = true := by
      intro l hl
      rcases List.mem_cons.mp hl with h3 | h3
      · subst h3; rfl
      · exact hval l h3
    simp only
    split
    · refine ⟨?_, ?_, ?_⟩
      · simp only [List.length_dropLast, List.length_cons]
        omega
      · refine List.Nodup.sublist ?_ hnd'
        exact List.Sublist.map CacheLine.tag (List.dropLast_sublist _)
      · intro l hl
        exact hval' l ((List.dropLast_sublist _).mem hl)
    · rename_i hover
      refine ⟨?_, hnd', hval'⟩
      simp only [List.length_cons] at hover ⊢
      omega

/-- The engine-wide well-formedness invariant: every set is well formed. -/
def goodSim (c : CacheSimulator) : Prop :=
  ∀ s ∈ c.sets, goodSet s

lemma goodSim_init : goodSim initSimulator := by
  intro s hs
  rw [initSimulator] at hs
  have := List.eq_of_mem_replicate hs
  subst this
  exact goodSet_nil

lemma goodSet_getD (c : CacheSimulator) (h : goodSim c) (i : Nat) :
    goodSet (c.sets.getD i []) := by
  by_cases hidx : i < c.sets.length
  · rw [List.getD_eq_getElem c.sets [] hidx]
    exact h _ (List.getElem_mem hidx)
  · rw [List.getD_eq_default _ _ (by omega)]
    exact goodSet_nil

lemma goodSim_step (c : CacheSimulator) (a : Nat) (h : goodSim c) :
    goodSim (accessMemory c a) := by
  intro s hs
  rw [accessMemory_sets] at hs
  rcases List.mem_or_eq_of_mem_set hs with hmem | heq
  · exact h s hmem
  · subst heq
    exact accessSet_good _ _ (goodSet_getD c h _)

lemma goodSim_foldl (trace : List Nat) :
    ∀ c : CacheSimulator, goodSim c → goodSim (trace.foldl accessMemory c) := by
  induction trace with
  | nil => intro c h; exact h
  | cons a tl ih => intro c h; exact ih _ (goodSim_step c a h)

/-! ## Claim theorems -/

/-- C1: for every sequence of `access` calls on a freshly constructed engine,
after every call `accesses == hits + misses` (every prefix of an access
sequence is itself such a sequence, so quantifying over all traces covers the
state after every call). -/
theorem counters_invariant (trace : List Nat) :
    (run trace).accesses = (run trace).hits + (run trace).misses :=
  counters_foldl trace initSimulator rfl

/-- C2: after every sequence of accesses on a freshly constructed engine,
each cache set holds at most `ways = 4` lines and no two lines in the same
set have the same tag. -/
theorem set_capacity_invariant (trace : List Nat) :
    WAYS = 4 ∧
    ∀ s ∈ (run trace).sets, s.length ≤ WAYS ∧ (s.map CacheLine.tag).Nodup := by
  refine ⟨rfl, ?_⟩
  intro s hs
  have h := goodSim_foldl trace initSimulator goodSim_init s hs
  exact ⟨h.1, h.2.1⟩

/-- C3: `access` decomposes the address exactly as
`index = (address >> offset_bits) & ((1 << index_bits) - 1)` and
`tag = address >> (offset_bits + index_bits)`, with `offset_bits = 6` and
`index_bits = 7` under the fixed 32KB/64B/4-way geometry, and the resulting
index always lies in `[0, num_sets)`. -/
theorem address_decomposition (a : Nat) :
    decodeIndex a = (a >>> OFFSET_BITS) &&& ((1 <<< INDEX_BITS) - 1) ∧
    decodeTag a = a >>> (OFFSET_BITS + INDEX_BITS) ∧
    OFFSET_BITS = get_log2 BLOCK_SIZE ∧ OFFSET_BITS = 6 ∧
    INDEX_BITS = get_log2 NUM_SETS ∧ INDEX_BITS = 7 ∧
    decodeIndex a < NUM_SETS :=
  ⟨rfl, rfl, rfl, by decide, rfl, by decide, decodeIndex_lt a⟩

/-- C4: if the set selected by the address's index contains a valid line with
the address's tag, `access` increments `hits` (and not `misses`), moves that
line — the first match, with its `valid` flag and tag unchanged — to the
most-recently-used front position of its set, keeps every other line of the
set (only their positions shift), and leaves every other set unchanged. -/
theorem access_hit_path (c : CacheSimulator) (a : Nat)
    (h : (c.sets.getD (decodeIndex a) []).any (lineMatches (decodeTag a)) = true) :
    (accessClassify c a).1 = true ∧
    (accessMemory c a).hits = c.hits + 1 ∧
    (accessMemory c a).misses = c.misses ∧
    (accessMemory c a).accesses = c.accesses + 1 ∧
    (∃ pre m post,
      c.sets.getD (decodeIndex a) [] = pre ++ m :: post ∧
      (∀ l ∈ pre, lineMatches (decodeTag a) l = false) ∧
      m.valid = true ∧ m.tag = decodeTag a ∧
      (accessMemory c a).sets.getD (decodeIndex a) [] = m :: (pre ++ post)) ∧
    (∀ j, j ≠ decodeIndex a → (accessMemory c a).sets.getD j [] = c.sets.getD j []) := by
  have hidx : decodeIndex a < c.sets.length := by
    by_contra hge
    rw [List.getD_eq_default _ _ (by omega)] at h
    simp at h
  have hsome : (extractFirst (decodeTag a) (c.sets.getD (decodeIndex a) [])).isSome = true := by
    rw [extractFirst_isSome_eq_any]
    exact h
  obtain ⟨pr, heq⟩ := Option.isSome_iff_exists.mp hsome
  obtain ⟨m, rest⟩ := pr
  obtain ⟨pre, post, hs, hr, hm, hpre⟩ := extractFirst_some_spec _ _ _ _ heq
  have hset : accessSet (decodeTag a) (c.sets.getD (decodeIndex a) []) = (true, m :: rest) := by
    rw [accessSet, heq]
  have hmv : m.valid = true ∧ m.tag = decodeTag a := by
    rw [lineMatches, Bool.and_eq_true, beq_iff_eq] at hm
    exact hm
  refine ⟨?_, ?_, ?_, ?_, ?_, ?_⟩
  · rw [accessClassify_fst, hset]
  · simp [accessMemory, accessClassify, ← List.getD_eq_getElem?_getD, hset]
  · simp [accessMemory, accessClassify, ← List.getD_eq_getElem?_getD, hset]
  · simp [accessMemory, accessClassify, ← List.getD_eq_getElem?_getD, hset]
  · refine ⟨pre, m, post, hs, hpre, hmv.1, hmv.2, ?_⟩
    rw [accessMemory_sets, hset, getD_set_self _ _ _ _ hidx, hr]
  · intro j hj
    rw [accessMemory_sets, getD_set_ne _ _ _ _ _ hj]

/-- C4 witness: after one access to `0x1000`, a second access to `0x1000`
satisfies the hit-path hypothesis and is classified as a hit. -/
theorem access_hit_path_witness :
    ((run [0x1000]).sets.getD (decodeIndex 0x1000) []).any (lineMatches (decodeTag 0x1000)) = true ∧
    (accessClassify (run [0x1000]) 0x1000).1 = true :=
  ⟨by decide, (access_hit_path (run [0x1000]) 0x1000 (by decide)).1⟩

/-- C5: if the set selected by the address's index contains no valid line with
the address's tag and the engine state is well formed (set sizes at most
`ways`, `num_sets` sets), `access` increments `misses` (and not `hits`),
inserts the line `{valid: true, tag}` at the most-recently-used front
position, removes the least-recently-used back line exactly when the size
then exceeds `ways` (via `dropLast` = `pop_back`), so the final set size is
at most `ways`; every other set is unchanged. -/
theorem access_miss_path (c : CacheSimulator) (a : Nat)
    (habs : (c.sets.getD (decodeIndex a) []).any (lineMatches (decodeTag a)) = false)
    (hlen : (c.sets.getD (decodeIndex a) []).length ≤ WAYS)
    (hsets : c.sets.length = NUM_SETS) :
    (accessClassify c a).1 = false ∧
    (accessMemory c a).misses = c.misses + 1 ∧
    (accessMemory c a).hits = c.hits ∧
    (accessMemory c a).accesses = c.accesses + 1 ∧
    (accessMemory c a).sets.getD (decodeIndex a) [] =
      (if WAYS < (({ valid := true, tag := decodeTag a } : CacheLine) :: c.sets.getD (decodeIndex a) []).length
       then (({ valid := true, tag := decodeTag a } : CacheLine) :: c.sets.getD (decodeIndex a) []).dropLast
       else ({ valid := true, tag := decodeTag a } : CacheLine) :: c.sets.getD (decodeIndex a) []) ∧
    ((accessMemory c a).sets.getD (decodeIndex a) []).length ≤ WAYS ∧
    (∀ j, j ≠ decodeIndex a → (accessMemory c a).sets.getD j [] = c.sets.getD j []) := by
  have hidx : decodeIndex a < c.sets.length := by
    rw [hsets]
    exact decodeIndex_lt a
  have hnone : extractFirst (decodeTag a) (c.sets.getD (decodeIndex a) []) = none := by
    have hiss : (extractFirst (decodeTag a) (c.sets.getD (decodeIndex a) [])).isSome = false := by
      rw [extractFirst_isSome_eq_any, habs]
    cases he : extractFirst (decodeTag a) (c.sets.getD (decodeIndex a) []) with
    | none => rfl
    | some pr => rw [he] at hiss; simp at hiss
  have hset : accessSet (decodeTag a) (c.sets.getD (decodeIndex a) []) =
      (false,
       if WAYS < (({ valid := true, tag := decodeTag a } : CacheLine) :: c.sets.getD (decodeIndex a) []).length
       then (({ valid := true, tag := decodeTag a } : CacheLine) :: c.sets.getD (decodeIndex a) []).dropLast
       else ({ valid := true, tag := decodeTag a } : CacheLine) :: c.sets.getD (decodeIndex a) []) := by
    rw [accessSet, hnone]
  refine ⟨?_, ?_, ?_, ?_, ?_, ?_, ?_⟩
  · rw [accessClassify_fst, hset]
  · simp [accessMemory, accessClassify, ← List.getD_eq_getElem?_getD, hset]
  · simp [accessMemory, accessClassify, ← List.getD_eq_getElem?_getD, hset]
  · simp [accessMemory, accessClassify, ← List.getD_eq_getElem?_getD, hset]
  · rw [accessMemory_sets, hset, getD_set_self _ _ _ _ hidx]
  · rw [accessMemory_sets, hset, getD_set_self _ _ _ _ hidx]
    split
    · simp only [List.dropLast_cons_of_ne_nil, List.length_dropLast, List.length_cons]
      omega
    · rename_i hover
      simp only [List.length_cons] at hover ⊢
      omega
  · intro j hj
    rw [accessMemory_sets, getD_set_ne _ _ _ _ _ hj]

/-- C5 witness: the very first access to `0x1000` on a fresh engine satisfies
the miss-path hypotheses and is classified as a miss. -/
theorem access_miss_path_witness :
    ((initSimulator.sets.getD (decodeIndex 0x1000) []).any (lineMatches (decodeTag 0x1000)) = false ∧
     (initSimulator.sets.getD (decodeIndex 0x1000) []).length ≤ WAYS ∧
     initSimulator.sets.length = NUM_SETS) ∧
    (accessClassify initSimulator 0x1000).1 = false :=
  ⟨⟨by decide, by decide, by decide⟩,
   (access_miss_path initSimulator 0x1000 (by decide) (by decide) (by decide)).1⟩

/-- C6: `access` is total: for every address the computed set index is
strictly below `num_sets = 128`, and the engine always holds exactly
`num_sets` sets, so the lookup `sets[index]` is always in bounds. -/
theorem access_in_bounds (trace : List Nat) (a : Nat) :
    decodeIndex a < NUM_SETS ∧ NUM_SETS = 128 ∧
    (run trace).sets.length = NUM_SETS ∧
    decodeIndex a < (run trace).sets.length := by
  refine ⟨decodeIndex_lt a, by decide, run_sets_length trace, ?_⟩
  rw [run_sets_length trace]
  exact decodeIndex_lt a

/-- C7 (counterexample): the hit rate computed by `printStats` is not
`hits / accesses`: after the trace `0x1000, 0x1000` (one hit out of two
accesses) the code computes `(1/2) * 100 = 50`, not `1/2` — the reported
value is a percentage. -/
theorem hit_rate_counterexample :
    0 < (run [0x1000, 0x1000]).accesses ∧
    hitRate (run [0x1000, 0x1000]) ≠
      ((run [0x1000, 0x1000]).hits : ℚ) / ((run [0x1000, 0x1000]).accesses : ℚ) := by
  constructor
  · decide
  · have h1 : (run [0x1000, 0x1000]).hits = 1 := by decide
    have h2 : (run [0x1000, 0x1000]).accesses = 2 := by decide
    rw [hitRate, h1, h2]
    norm_num

/-- C7 (amended): `report` returns
`hit_rate = (hits / accesses) * 100` (the ratio expressed as a percentage)
when `accesses > 0`, and the defined value `0` when `accesses == 0` (no
division-by-zero fault); in particular, on a freshly constructed engine it
returns `hit_rate = 0`. -/
theorem report_hit_rate (c : CacheSimulator) :
    (0 < c.accesses → hitRate c = ((c.hits : ℚ) / (c.accesses : ℚ)) * 100) ∧
    (c.accesses = 0 → hitRate c = 0) ∧
    report c = (c.accesses, c.hits, c.misses, hitRate c) ∧
    initSimulator.accesses = 0 ∧ hitRate initSimulator = 0 := by
  refine ⟨?_, ?_, rfl, rfl, rfl⟩
  · intro h
    rw [hitRate, if_pos h]
  · intro h
    rw [hitRate, if_neg (by omega)]

/-- C7 witness: after one access, `accesses = 1 > 0` and the reported rate is
`(hits / accesses) * 100`. -/
theorem report_hit_rate_witness :
    0 < (run [0x1000]).accesses ∧
    hitRate (run [0x1000]) =
      (((run [0x1000]).hits : ℚ) / ((run [0x1000]).accesses : ℚ)) * 100 :=
  ⟨by decide, (report_hit_rate (run [0x1000])).1 (by decide)⟩

/-- C8 (counterexample): the three spatial-locality addresses do not decode
to set index 0: `0x1000` decodes to index 64. -/
theorem spatial_index_counterexample :
    decodeIndex 0x1000 = 64 ∧ decodeIndex 0x1000 ≠ 0 := by decide

/-- C8 (amended): under the fixed geometry, `0x1000`, `0x1004`, `0x1008` all
decode to set index 64 with common tag 0, and feeding them in that order to a
freshly constructed engine classifies them as miss, hit, hit. -/
theorem spatial_locality :
    decodeIndex 0x1000 = 64 ∧ decodeIndex 0x1004 = 64 ∧ decodeIndex 0x1008 = 64 ∧
    decodeTag 0x1000 = 0 ∧ decodeTag 0x1004 = 0 ∧ decodeTag 0x1008 = 0 ∧
    classifyTrace [0x1000, 0x1004, 0x1008] = [false, true, true] := by decide

lemma decode_encodeAddr (t i : Nat) (hi : i < NUM_SETS) :
    decodeIndex (encodeAddr t i) = i ∧ decodeTag (encodeAddr t i) = t := by
  have hOB : OFFSET_BITS = 6 := by decide
  have hIB : INDEX_BITS = 7 := by decide
  have hNS : NUM_SETS = 128 := by decide
  rw [hNS] at hi
  have henc : encodeAddr t i = t * 8192 + i * 64 := by
    rw [encodeAddr, hOB, hIB, Nat.shiftLeft_eq, Nat.shiftLeft_eq]
  constructor
  · rw [decodeIndex, index_mask_eq, henc, hOB, Nat.shiftRight_eq_div_pow]
    have h127 : (127 : Nat) = 2 ^ 7 - 1 := by norm_num
    rw [h127, Nat.and_pow_two_sub_one_eq_mod]
    have hdiv : (t * 8192 + i * 64) / 2 ^ 6 = t * 128 + i := by omega
    rw [hdiv]
    omega
  · rw [decodeTag, henc, hOB, hIB, Nat.shiftRight_eq_div_pow]
    show (t * 8192 + i * 64) / 2 ^ 13 = t
    omega

/-- C9: with `ways = 4`, if the set at index `i` holds exactly the four
distinct tags `[t0 (MRU), t1, t2, t3 (LRU)]` and `t4` is a fresh tag, then an
access to an address carrying `(t4, i)` misses and evicts exactly `t3` (the
set becomes `[t4, t0, t1, t2]`); afterwards an access to `t3` misses while
accesses to `t0`, `t1` and `t2` hit. -/
theorem lru_eviction (c : CacheSimulator) (i t0 t1 t2 t3 t4 : Nat)
    (hi : i < NUM_SETS)
    (hsets : c.sets.length = NUM_SETS)
    (hset : c.sets.getD i [] =
      [⟨true, t0⟩, ⟨true, t1⟩, ⟨true, t2⟩, ⟨true, t3⟩])
    (hd : List.Nodup [t0, t1, t2, t3, t4]) :
    (accessClassify c (encodeAddr t4 i)).1 = false ∧
    (accessMemory c (encodeAddr t4 i)).sets.getD i [] =
      [⟨true, t4⟩, ⟨true, t0⟩, ⟨true, t1⟩, ⟨true, t2⟩] ∧
    (accessClassify (accessMemory c (encodeAddr t4 i)) (encodeAddr t3 i)).1 = false ∧
    (accessClassify (accessMemory c (encodeAddr t4 i)) (encodeAddr t0 i)).1 = true ∧
    (accessClassify (accessMemory c (encodeAddr t4 i)) (encodeAddr t1 i)).1 = true ∧
    (accessClassify (accessMemory c (encodeAddr t4 i)) (encodeAddr t2 i)).1 = true := by
  obtain ⟨hdec4i, hdec4t⟩ := decode_encodeAddr t4 i hi
  obtain ⟨hdec3i, hdec3t⟩ := decode_encodeAddr t3 i hi
  obtain ⟨hdec0i, hdec0t⟩ := decode_encodeAddr t0 i hi
  obtain ⟨hdec1i, hdec1t⟩ := decode_encodeAddr t1 i hi
  obtain ⟨hdec2i, hdec2t⟩ := decode_encodeAddr t2 i hi
  have hidx : i < c.sets.length := by rw [hsets]; exact hi
  simp only [List.nodup_cons, List.mem_cons, List.mem_singleton, List.not_mem_nil,
    List.nodup_nil, not_or, not_false_iff, and_true] at hd
  obtain ⟨⟨h01, h02, h03, h04⟩, ⟨h12, h13, h14⟩, ⟨h23, h24⟩, h34⟩ := hd
  have e04 : (t0 == t4) = false := beq_eq_false_iff_ne.mpr h04
  have e14 : (t1 == t4) = false := beq_eq_false_iff_ne.mpr h14
  have e24 : (t2 == t4) = false := beq_eq_false_iff_ne.mpr h24
  have e34 : (t3 == t4) = false := beq_eq_false_iff_ne.mpr h34
  have e43 : (t4 == t3) = false := beq_eq_false_iff_ne.mpr (Ne.symm h34)
  have e03 : (t0 == t3) = false := beq_eq_false_iff_ne.mpr h03
  have e13 : (t1 == t3) = false := beq_eq_false_iff_ne.mpr h13
  have e23 : (t2 == t3) = false := beq_eq_false_iff_ne.mpr h23
  have e40 : (t4 == t0) = false := beq_eq_false_iff_ne.mpr (Ne.symm h04)
  have e41 : (t4 == t1) = false := beq_eq_false_iff_ne.mpr (Ne.symm h14)
  have e01 : (t0 == t1) = false := beq_eq_false_iff_ne.mpr h01
  have e42 : (t4 == t2) = false := beq_eq_false_iff_ne.mpr (Ne.symm h24)
  have e02 : (t0 == t2) = false := beq_eq_false_iff_ne.mpr h02
  have e12 : (t1 == t2) = false := beq_eq_false_iff_ne.mpr h12
  have hs1 : accessSet t4 (c.sets.getD i []) =
      (false, [⟨true, t4⟩, ⟨true, t0⟩, ⟨true, t1⟩, ⟨true, t2⟩]) := by
    rw [hset]
    simp [accessSet, extractFirst, lineMatches, e04, e14, e24, e34, WAYS, List.dropLast]
  have hm1 : (accessMemory c (encodeAddr t4 i)).sets.getD i [] =
      [⟨true, t4⟩, ⟨true, t0⟩, ⟨true, t1⟩, ⟨true, t2⟩] := by
    rw [accessMemory_sets, hdec4i, hdec4t, hs1]
    exact getD_set_self _ _ _ _ hidx
  refine ⟨?_, hm1, ?_, ?_, ?_, ?_⟩
  · rw [accessClassify_fst, hdec4i, hdec4t, hs1]
  · rw [accessClassify_fst, hdec3i, hdec3t, hm1]
    simp [accessSet, extractFirst, lineMatches, e43, e03, e13, e23]
  · rw [accessClassify_fst, hdec0i, hdec0t, hm1]
    simp [accessSet, extractFirst, lineMatches, e40]
  · rw [accessClassify_fst, hdec1i, hdec1t, hm1]
    simp [accessSet, extractFirst, lineMatches, e41, e01]
  · rw [accessClassify_fst, hdec2i, hdec2t, hm1]
    simp [accessSet, extractFirst, lineMatches, e42, e02, e12]

/-- C9 witness: a set filled with tags 0,1,2,3 (MRU to LRU) at index 64; the
fresh tag 4 misses and evicts tag 3. -/
theorem lru_eviction_witness :
    (64 < NUM_SETS ∧
     (run [encodeAddr 3 64, encodeAddr 2 64, encodeAddr 1 64, encodeAddr 0 64]).sets.length = NUM_SETS ∧
     (run [encodeAddr 3 64, encodeAddr 2 64, encodeAddr 1 64, encodeAddr 0 64]).sets.getD 64 [] =
       [⟨true, 0⟩, ⟨true, 1⟩, ⟨true, 2⟩, ⟨true, 3⟩] ∧
     List.Nodup [0, 1, 2, 3, 4]) ∧
    (accessClassify (run [encodeAddr 3 64, encodeAddr 2 64, encodeAddr 1 64, encodeAddr 0 64])
      (encodeAddr 4 64)).1 = false :=
  ⟨⟨by decide, by decide, by decide, by decide⟩,
   (lru_eviction (run [encodeAddr 3 64, encodeAddr 2 64, encodeAddr 1 64, encodeAddr 0 64])
     64 0 1 2 3 4 (by decide) (by decide) (by decide) (by decide)).1⟩

/-- C10: replaying the hardcoded reference trace of `main` through a freshly
constructed engine yields `accesses = 11`, `hits = 4`, `misses = 7`, the hits
being exactly the accesses to `0x1004`, `0x1008`, `0x2004` and the second
`0x1000` (positions 1, 2, 4, 5 of the trace). -/
theorem reference_trace_replay :
    classifyTrace refTrace =
      [false, true, true, false, true, true, false, false, false, false, false] ∧
    (run refTrace).accesses = 11 ∧
    (run refTrace).hits = 4 ∧
    (run refTrace).misses = 7 := by decide

end CacheSim
